import Mathlib

/-!
Verification of the tide-extraction and interpolation core of `tide.py`
(Moonee Beach tide CLI).

Shallow embedding conventions:

* All times of day are rational numbers of minutes since local midnight of
  the current day (`datetime` values produced by `strptime` plus
  `replace(year, month, day)` all land on the same calendar day, so the
  within-day minute count is a faithful image of the `datetime` order and
  arithmetic used by the program; `total_seconds()/3600` equals our
  `minutes/60`).
* Python floats are modelled as rationals (`ℚ`).
* `datetime.strptime` with the two formats `"%I:%M %p"` and `"%I:%M%p"` is
  modelled character by character after CPython's `_strptime` regexes:
  hour `(1[0-2]|0[1-9]|[1-9])`, minute `([0-5]\d|\d)` (with backtracking to
  the one-digit alternative), a literal `:`, whitespace in the format
  matching one-or-more whitespace characters, meridiem `AM|PM`
  case-insensitively, and the whole string must be consumed.
* `float(...)` applied to height strings is modelled for the plain decimal
  forms `[ws] [+|-] digits [. digits] [ws]` (exponents and the named
  specials never arise from the height labels this program handles).
* The BeautifulSoup structural phase is modelled by the `Soup` type: either
  a structural failure (`malformed` for any exception the top-level
  `try/except` catches, `noDaySection` for a missing `li.day`), or the list
  of matched tide-point nodes, each carrying its class list and the
  optional text of its `h3` (time) and `span` (height) sub-elements.
* Wall-clock reads (`datetime.now()`) are explicit: the per-function model
  takes `now` as a parameter, and a second, clocked model (`*Clk`) threads
  a stream of clock readings with an index, one index consumed per actual
  `datetime.now()` call, mirroring where those calls sit in the source.
-/

/-- `tide["type"]`: `"HIGH"` or `"LOW"` (line 55 of tide.py). -/
inductive TideType where
  | HIGH : TideType
  | LOW : TideType
deriving DecidableEq, Repr

/-- The dict appended at lines 86-91 of tide.py: verbatim time label, parsed
time of day (absent when both formats fail), verbatim height label, and the
tide type. -/
structure Tide where
  time_str : String
  time : Option ℚ
  height : String
  type : TideType
deriving DecidableEq, Repr

/-- The dict returned by `get_current_tide_status` (lines 160-168). -/
structure TideStatus where
  current_height : ℚ
  direction : String
  is_rising : Bool
  progress : ℚ
  prev_tide : Tide
  next_tide : Tide
  hours_remaining : ℚ
deriving DecidableEq, Repr

/-! ## Time parsing: `datetime.strptime(s, "%I:%M %p")` and `"%I:%M%p"` -/

/-- Numeric value of a decimal digit character. -/
def digitVal (c : Char) : Nat := c.toNat - 48

/-- CPython `_strptime` directive `%I`: regex `(1[0-2]|0[1-9]|[1-9])`,
alternatives tried left to right.  Returns the hour and the remaining
characters.  (The only character that can follow the hour here is `:`,
which is not a digit, so the regex engine's backtracking from the
two-digit alternatives can never produce a different overall match.) -/
def parseHourI : List Char → Option (Nat × List Char)
  | [] => none
  | c :: rest =>
    if c = '1' then
      match rest with
      | d :: rest2 => if '0' ≤ d ∧ d ≤ '2' then some (10 + digitVal d, rest2) else some (1, rest)
      | [] => some (1, [])
    else if c = '0' then
      match rest with
      | d :: rest2 => if '1' ≤ d ∧ d ≤ '9' then some (digitVal d, rest2) else none
      | [] => none
    else if '2' ≤ c ∧ c ≤ '9' then some (digitVal c, rest)
    else none

/-- `%p` (locale AM/PM, matched case-insensitively): returns `true` for PM
and the remaining characters. -/
def parseAmPm : List Char → Option (Bool × List Char)
  | a :: b :: rest =>
    if (a = 'A' ∨ a = 'a') ∧ (b = 'M' ∨ b = 'm') then some (false, rest)
    else if (a = 'P' ∨ a = 'p') ∧ (b = 'M' ∨ b = 'm') then some (true, rest)
    else none
  | _ => none

/-- The tail of the two formats after the minute: for `"%I:%M %p"` one or
more whitespace characters then the meridiem, for `"%I:%M%p"` the meridiem
directly; `strptime` then requires the whole string to have been consumed.
Returns the meridiem (`true` = PM). -/
def finishTime (space : Bool) (cs : List Char) : Option Bool :=
  let rest : Option (List Char) :=
    if space then
      match cs with
      | c :: cs2 => if c.isWhitespace then some (cs2.dropWhile Char.isWhitespace) else none
      | [] => none
    else some cs
  match rest with
  | none => none
  | some cs3 =>
    match parseAmPm cs3 with
    | some (pm, []) => some pm
    | _ => none

/-- 12-hour clock to minutes since midnight: 12 AM is hour 0, 12 PM is hour
12, otherwise PM adds 12 hours. -/
def to24Minutes (h m : Nat) (pm : Bool) : Nat :=
  (if pm then (if h = 12 then 12 else h + 12) else (if h = 12 then 0 else h)) * 60 + m

/-- Minute directive `%M` (regex `([0-5]\d|\d)`) followed by the format's
tail: the two-digit alternative is tried first and the engine backtracks to
the one-digit alternative if the tail fails after it. -/
def parseMinuteTail (space : Bool) (h : Nat) : List Char → Option Nat
  | a :: b :: rest =>
    if ('0' ≤ a ∧ a ≤ '5') ∧ b.isDigit then
      match finishTime space rest with
      | some pm => some (to24Minutes h (digitVal a * 10 + digitVal b) pm)
      | none =>
        match finishTime space (b :: rest) with
        | some pm => some (to24Minutes h (digitVal a) pm)
        | none => none
    else if a.isDigit then
      match finishTime space (b :: rest) with
      | some pm => some (to24Minutes h (digitVal a) pm)
      | none => none
    else none
  | [a] =>
    if a.isDigit then
      match finishTime space [] with
      | some pm => some (to24Minutes h (digitVal a) pm)
      | none => none
    else none
  | [] => none

/-- `datetime.strptime(s, "%I:%M %p")` (with `space = true`) or
`datetime.strptime(s, "%I:%M%p")` (with `space = false`), reduced to the
time of day it yields: minutes since midnight, or `none` for `ValueError`. -/
def strptimeIMp (space : Bool) (s : String) : Option Nat :=
  match parseHourI s.toList with
  | some (h, cs) =>
    match cs with
    | c :: cs2 => if c = ':' then parseMinuteTail space h cs2 else none
    | [] => none
  | none => none

/-- Lines 72-84 of tide.py: try `"%I:%M %p"`, then `"%I:%M%p"`; both failing
leaves the time absent. -/
def parse_time_raw (s : String) : Option Nat :=
  match strptimeIMp true s with
  | some m => some m
  | none => strptimeIMp false s

/-- The parsed tide time anchored to today (lines 73-82): in the within-day
model the `replace(year, month, day)` step is the identity on the time of
day, so this is just the parsed minute count as a rational. -/
def parse_time (s : String) : Option ℚ :=
  (parse_time_raw s).map (fun m => (m : ℚ))

/-! ## The extractor: `parse_tide_data` (lines 36-97) -/

/-- One matched tide-point node (`li` whose class list contains
`point-high` or `point-low`, line 50): its class list, the text of its
first `h3` descendant if any (line 58), and the text of its first `span`
descendant if any (line 65). -/
structure Point where
  classes : List String
  time_elem : Option String
  height_elem : Option String
deriving DecidableEq, Repr

/-- Line 55: `"HIGH" if "point-high" in point_classes else "LOW"`. -/
def tideTypeOf (classes : List String) : TideType :=
  if "point-high" ∈ classes then TideType.HIGH else TideType.LOW

/-- The loop body for one point (lines 52-91): `continue` when the `h3` or
the `span` is missing, otherwise emit the event with the verbatim labels
and the (possibly failed) parsed time. -/
def parsePoint (p : Point) : Option Tide :=
  match p.time_elem with
  | none => none
  | some time_str =>
    match p.height_elem with
    | none => none
    | some height_str =>
      some { time_str := time_str, time := parse_time time_str,
             height := height_str, type := tideTypeOf p.classes }

/-- The structural outcome of the BeautifulSoup phase on the raw markup:
`malformed` is any exception caught by the top-level `try/except` at line
93, `noDaySection` is `soup.find("li", class_="day")` returning nothing
(line 45), and `daySection pts` carries the matched tide-point nodes of the
first day-section in document order (line 50). -/
inductive Soup where
  | malformed : Soup
  | noDaySection : Soup
  | daySection : List Point → Soup
deriving DecidableEq, Repr

/-- `parse_tide_data` (lines 36-97): an empty list on either structural
failure path, otherwise the per-point loop over the matched points; the
function is total (the Python never lets an exception escape). -/
def parse_tide_data : Soup → List Tide
  | Soup.malformed => []
  | Soup.noDaySection => []
  | Soup.daySection pts => pts.filterMap parsePoint

/-! ## Height parsing: `float(h.replace("m", ""))` (lines 144-145) -/

/-- Decimal value of a digit list read left to right. -/
def digitsVal (cs : List Char) : Nat :=
  cs.foldl (fun acc c => acc * 10 + digitVal c) 0

/-- The unsigned body accepted by Python `float`: `digits`, `digits.`,
`digits.digits` or `.digits`; anything else raises `ValueError`.  Returns
the integer-part value, the fraction-part value and the fraction-part
digit count. -/
def parseFloatCore (cs : List Char) : Option (Nat × Nat × Nat) :=
  let ip := cs.takeWhile Char.isDigit
  let rest := cs.dropWhile Char.isDigit
  match rest with
  | [] => if ip.isEmpty then none else some (digitsVal ip, 0, 0)
  | c :: rest2 =>
    if c = '.' then
      let fp := rest2.takeWhile Char.isDigit
      let rest3 := rest2.dropWhile Char.isDigit
      if rest3.isEmpty ∧ ¬(ip.isEmpty ∧ fp.isEmpty) then
        some (digitsVal ip, digitsVal fp, fp.length)
      else none
    else none

/-- The rational a parsed digit body denotes. -/
def floatVal (p : Nat × Nat × Nat) : ℚ :=
  (p.1 : ℚ) + (p.2.1 : ℚ) / (10 : ℚ) ^ p.2.2

/-- The optional sign before the digit body (`true` = negative). -/
def parseFloatSigned (cs : List Char) : Option (Bool × Nat × Nat × Nat) :=
  match cs with
  | [] => none
  | c :: rest =>
    if c = '-' then (parseFloatCore rest).map (fun p => (true, p))
    else if c = '+' then (parseFloatCore rest).map (fun p => (false, p))
    else (parseFloatCore (c :: rest)).map (fun p => (false, p))

/-- Python `float` strips surrounding whitespace first. -/
def floatStrip (s : String) : List Char :=
  ((s.toList.dropWhile Char.isWhitespace).reverse.dropWhile Char.isWhitespace).reverse

/-- Python `float(s)` on the decimal forms the height labels can take:
surrounding whitespace stripped, an optional sign, then the digit body. -/
def parseFloat (s : String) : Option ℚ :=
  (parseFloatSigned (floatStrip s)).map
    (fun p => if p.1 then -(floatVal p.2) else floatVal p.2)

/-- `s.replace("m", "")` (lines 144-145): every occurrence of the unit
character is removed, not only a trailing one. -/
def replaceAllM (s : String) : String :=
  List.asString (s.toList.filter (fun c => c ≠ 'm'))

/-- The conversion C8's sentence describes, written from the spec's words
("parsed to numeric meters by stripping a trailing unit suffix"): only a
trailing `m` is removed.  Kept beside `replaceAllM` (what the code does)
to compare the two. -/
def specStripTrailingSuffix (s : String) : String :=
  match s.toList.reverse with
  | 'm' :: rest => String.mk rest.reverse
  | _ => s

/-! ## The calculator: `find_next_high_tide` and `get_current_tide_status` -/

/-- The truthiness test `tide["time"] and tide["time"] > now` (line 105,
also line 129's comparison guard shape): false when the time is absent. -/
def timeAfter (t : Option ℚ) (now : ℚ) : Bool :=
  match t with
  | some x => decide (now < x)
  | none => false

/-- `find_next_high_tide` (lines 100-109) with the `datetime.now()` read
made a parameter: index of the first HIGH event with a present time
strictly after `now`. -/
def find_next_high_tide (tides : List Tide) (now : ℚ) : Option Nat :=
  match tides with
  | [] => none
  | t :: rest =>
    if (t.type = TideType.HIGH) ∧ timeAfter t.time now then some 0
    else (find_next_high_tide rest now).map (· + 1)

/-- The scan of lines 120-131: events with absent time are skipped, an
event with time `≤ now` replaces `prev`, and the first event with time
`> now` becomes `next` and stops the loop (`break`).  The pair carries each
chosen event together with its (necessarily present) time. -/
def scanBracket (now : ℚ) : Option (Tide × ℚ) → List Tide → Option (Tide × ℚ) × Option (Tide × ℚ)
  | prev, [] => (prev, none)
  | prev, t :: rest =>
    match t.time with
    | none => scanBracket now prev rest
    | some x =>
      if x ≤ now then scanBracket now (some (t, x)) rest
      else (prev, some (t, x))

/-- Lines 138-140: `progress = elapsed / total_duration if total_duration > 0
else 0`. -/
def tideProgress (prevT nextT now : ℚ) : ℚ :=
  let total := nextT - prevT
  let elapsed := now - prevT
  if 0 < total then elapsed / total else 0

/-- Line 150: `prev_height + (next_height - prev_height) * progress`. -/
def interpHeight (ph nh progress : ℚ) : ℚ :=
  ph + (nh - ph) * progress

/-- `get_current_tide_status` (lines 112-168) with the `datetime.now()`
read made a parameter. -/
def get_current_tide_status (tides : List Tide) (now : ℚ) : Option TideStatus :=
  if tides.length < 2 then none
  else
    match scanBracket now none tides with
    | (some (prev_tide, prevT), some (next_tide, nextT)) =>
      let progress := tideProgress prevT nextT now
      match parseFloat (replaceAllM prev_tide.height), parseFloat (replaceAllM next_tide.height) with
      | some prev_height, some next_height =>
        let is_rising : Bool := decide (next_tide.type = TideType.HIGH)
        some { current_height := interpHeight prev_height next_height progress,
               direction := if is_rising then "Rising" else "Falling",
               is_rising := is_rising,
               progress := progress,
               prev_tide := prev_tide,
               next_tide := next_tide,
               hours_remaining := (nextT - now) / 60 }
      | _, _ => none
    | _ => none

/-! ## The clocked model: every `datetime.now()` call made explicit

The per-function model above takes `now` as a parameter.  The source,
however, calls `datetime.now()` afresh in several places: once per
successfully parsed point inside `parse_tide_data` (line 75 or 81), once in
`get_current_tide_status` (line 117, reached only when there are at least 2
events), and once in `find_next_high_tide` (line 102).  The clocked model
threads a stream of clock readings `Nat → ClockReading` together with the
index of the next unread value; each function consumes exactly the
readings its `datetime.now()` calls would. -/

/-- One `datetime.now()` result: the calendar day (as a day count) and the
time of day in minutes; `replace(year, month, day)` keeps the day part,
comparisons use the absolute value. -/
structure ClockReading where
  day : Int
  mins : ℚ
deriving DecidableEq, Repr

/-- The absolute time a reading denotes, in minutes. -/
def absTime (r : ClockReading) : ℚ :=
  1440 * (r.day : ℚ) + r.mins

/-- `tide_time.replace(year=now.year, month=now.month, day=now.day)`
(lines 76 and 82): the parsed time of day anchored to the reading's day. -/
def anchorToDay (r : ClockReading) (m : Nat) : ℚ :=
  1440 * (r.day : ℚ) + (m : ℚ)

/-- The loop body for one point with its clock reads explicit: a reading is
consumed exactly when one of the two `strptime` calls succeeds (lines
73-82); a point skipped for a missing sub-element, or whose label fails
both formats, reads the clock zero times. -/
def parsePointClk (clk : Nat → ClockReading) (i : Nat) (p : Point) : Option Tide × Nat :=
  match p.time_elem with
  | none => (none, i)
  | some time_str =>
    match p.height_elem with
    | none => (none, i)
    | some height_str =>
      match parse_time_raw time_str with
      | some m =>
        (some { time_str := time_str, time := some (anchorToDay (clk i) m),
                height := height_str, type := tideTypeOf p.classes }, i + 1)
      | none =>
        (some { time_str := time_str, time := none,
                height := height_str, type := tideTypeOf p.classes }, i)

/-- The extraction loop with its clock reads explicit. -/
def parseClk (clk : Nat → ClockReading) : Nat → List Point → List Tide × Nat
  | i, [] => ([], i)
  | i, p :: ps =>
    match parsePointClk clk i p with
    | (some t, i2) =>
      let r := parseClk clk i2 ps
      (t :: r.1, r.2)
    | (none, i2) => parseClk clk i2 ps

/-- `get_current_tide_status` with its clock read explicit: the length
check at line 114 precedes the `datetime.now()` at line 117, so fewer than
2 events reads the clock zero times. -/
def statusClk (tides : List Tide) (clk : Nat → ClockReading) (i : Nat) :
    Option TideStatus × Nat :=
  if tides.length < 2 then (none, i)
  else (get_current_tide_status tides (absTime (clk i)), i + 1)

/-- `find_next_high_tide` with its clock read explicit (line 102). -/
def findClk (tides : List Tide) (clk : Nat → ClockReading) (i : Nat) :
    Option Nat × Nat :=
  (find_next_high_tide tides (absTime (clk i)), i + 1)

/-- One run of the core pipeline in the source's order (`main` parses, then
`display_tides` computes the current status and then the next high tide):
the extracted events, the current status and the next-high-tide index,
with the clock readings consumed in sequence. -/
def runPipeline (clk : Nat → ClockReading) (pts : List Point) :
    List Tide × Option TideStatus × Option Nat :=
  let pr := parseClk clk 0 pts
  let st := statusClk pr.1 clk pr.2
  let nh := findClk pr.1 clk st.2
  (pr.1, st.1, nh.1)

/-- Does extracting this point consume a clock reading?  (Both sub-elements
present and the time label parses.) -/
def pointReads (p : Point) : Bool :=
  match p.time_elem, p.height_elem with
  | some ts, some _ => (parse_time_raw ts).isSome
  | _, _ => false

/-! ## Concrete inputs used by the claims -/

/-- The spec's synthetic round-trip events: 6:00 AM LOW 0.50m and
12:00 PM HIGH 1.80m, with the times produced by the extractor's own
time parser. -/
def syntheticEvents : List Tide :=
  [ { time_str := "6:00 AM", time := parse_time "6:00 AM", height := "0.50m", type := TideType.LOW },
    { time_str := "12:00 PM", time := parse_time "12:00 PM", height := "1.80m", type := TideType.HIGH } ]

/-- 9:00 AM as minutes since midnight. -/
def now9am : ℚ := 540

/-- Events whose first height label carries a unit character in the middle:
`replace("m", "")` accepts it, stripping only a trailing suffix would not. -/
def oddHeightEvents : List Tide :=
  [ { time_str := "6:00 AM", time := some 360, height := "0m.50m", type := TideType.LOW },
    { time_str := "12:00 PM", time := some 720, height := "1.80m", type := TideType.HIGH } ]

/-- A single matched high-tide point, used to exhibit the clock-read
behaviour of a run. -/
def highPoint : Point :=
  { classes := ["point-high"], time_elem := some "6:00 AM", height_elem := some "1.00m" }

/-- A clock stuck at 5:00 AM of day 0. -/
def clkConst : Nat → ClockReading := fun _ => { day := 0, mins := 300 }

/-- A clock that reads 5:00 AM of day 0 first and 7:00 AM of day 0 on
every later read. -/
def clkDrift : Nat → ClockReading := fun i =>
  if i = 0 then { day := 0, mins := 300 } else { day := 0, mins := 420 }

/-! ## Theorems -/

/-- The event the extraction loop emits for a point whose `h3` text is `ts`
and whose `span` text is `hs` (lines 86-91), used to state what
`parse_tide_data` produces point by point. -/
def emittedTide (cls : List String) (ts hs : String) : Tide :=
  { time_str := ts, time := parse_time ts, height := hs, type := tideTypeOf cls }

theorem parsePoint_eq_none {p : Point}
    (h : p.time_elem = none ∨ p.height_elem = none) : parsePoint p = none := by
  rcases h with h | h
  · simp [parsePoint, h]
  · cases hts : p.time_elem <;> simp [parsePoint, hts, h]

theorem parse_day_eq (pts : List Point) :
    pts.filterMap parsePoint =
      (pts.filter (fun p => p.time_elem.isSome && p.height_elem.isSome)).map
        (fun p => emittedTide p.classes (p.time_elem.getD "") (p.height_elem.getD "")) := by
  induction pts with
  | nil => rfl
  | cons p ps ih =>
    cases hts : p.time_elem with
    | none =>
      simp [List.filterMap_cons, List.filter_cons, parsePoint, hts, ih]
    | some ts =>
      cases hhs : p.height_elem with
      | none =>
        simp [List.filterMap_cons, List.filter_cons, parsePoint, hts, hhs, ih]
      | some hs =>
        simp [List.filterMap_cons, List.filter_cons, parsePoint, hts, hhs, emittedTide, ih]

/-- Claim C4: for every well-formed markup input with at least one matched
tide-point node in the first day-section, `parse_tide_data` returns a list
whose length equals the number of matched points having both the `h3`
(time) and `span` (height) sub-elements present, in original document
order (the output is exactly the emitted event of each such point, in
order); a point whose time label fails both recognized 12-hour formats is
still emitted, with absent parsed time and its verbatim labels. -/
theorem c4_extract_length_order (pts : List Point) (hne : pts ≠ []) :
    (parse_tide_data (Soup.daySection pts)).length =
      (pts.filter (fun p => p.time_elem.isSome && p.height_elem.isSome)).length ∧
    parse_tide_data (Soup.daySection pts) =
      (pts.filter (fun p => p.time_elem.isSome && p.height_elem.isSome)).map
        (fun p => emittedTide p.classes (p.time_elem.getD "") (p.height_elem.getD "")) ∧
    ∀ cls ts hs, parse_time ts = none →
      emittedTide cls ts hs =
        { time_str := ts, time := none, height := hs, type := tideTypeOf cls } := by
  refine ⟨?_, parse_day_eq pts, ?_⟩
  · rw [show parse_tide_data (Soup.daySection pts) = pts.filterMap parsePoint from rfl,
      parse_day_eq pts, List.length_map]
  · intro cls ts hs hfail
    simp [emittedTide, hfail]

/-- Witness for C4 at the one-point input `highPoint`. -/
theorem c4_extract_length_order_witness :
    (parse_tide_data (Soup.daySection [highPoint])).length =
      (([highPoint] : List Point).filter
        (fun p => p.time_elem.isSome && p.height_elem.isSome)).length :=
  (c4_extract_length_order [highPoint] (by decide)).1

/-- Claim C5: `parse_tide_data` never raises (it is a total function in
this model): both structural failure outcomes (a malformed tree caught by
the top-level handler, or a missing day-section) yield the empty list, and
a point missing its time or height sub-element only drops that point,
leaving the events of the surrounding points unchanged. -/
theorem c5_extract_total_and_skips :
    parse_tide_data Soup.malformed = [] ∧
    parse_tide_data Soup.noDaySection = [] ∧
    ∀ (pre post : List Point) (p : Point), p.time_elem = none ∨ p.height_elem = none →
      parse_tide_data (Soup.daySection (pre ++ p :: post)) =
        parse_tide_data (Soup.daySection (pre ++ post)) := by
  refine ⟨rfl, rfl, ?_⟩
  intro pre post p hp
  show (pre ++ p :: post).filterMap parsePoint = (pre ++ post).filterMap parsePoint
  rw [List.filterMap_append, List.filterMap_append, List.filterMap_cons,
    parsePoint_eq_none hp]

/-- The property "is a HIGH event whose time is present and strictly after
`now`", as the claim states it. -/
def NextHighMatch (now : ℚ) (t : Tide) : Prop :=
  t.type = TideType.HIGH ∧ ∃ x, t.time = some x ∧ now < x

theorem nextHighMatch_iff (now : ℚ) (t : Tide) :
    NextHighMatch now t ↔ (t.type = TideType.HIGH ∧ timeAfter t.time now = true) := by
  unfold NextHighMatch
  cases h : t.time <;> simp [timeAfter, h]

theorem find_next_high_some_iff (now : ℚ) :
    ∀ (tides : List Tide) (i : Nat),
      find_next_high_tide tides now = some i ↔
        (∃ t, tides.get? i = some t ∧ NextHighMatch now t) ∧
          ∀ j t, j < i → tides.get? j = some t → ¬ NextHighMatch now t := by
  intro tides
  induction tides with
  | nil => intro i; simp [find_next_high_tide]
  | cons t rest ih =>
    intro i
    by_cases h : NextHighMatch now t
    · have hb := (nextHighMatch_iff now t).mp h
      rw [find_next_high_tide, if_pos hb]
      cases i with
      | zero =>
        simp only [Option.some.injEq, eq_self_iff_true, true_iff]
        exact ⟨⟨t, by simp, h⟩, by omega⟩
      | succ k =>
        simp only [Option.some.injEq]
        constructor
        · omega
        · rintro ⟨-, hall⟩
          exact absurd h (hall 0 t (Nat.succ_pos k) (by simp))
    · have hb : ¬(t.type = TideType.HIGH ∧ timeAfter t.time now = true) :=
        fun hc => h ((nextHighMatch_iff now t).mpr hc)
      rw [find_next_high_tide, if_neg hb]
      cases i with
      | zero =>
        simp only [Option.map_eq_some']
        constructor
        · rintro ⟨i2, -, hcon⟩; omega
        · rintro ⟨⟨t2, ht2, hm⟩, -⟩
          simp only [List.get?_cons_zero, Option.some.injEq] at ht2
          exact absurd (ht2 ▸ hm) h
      | succ k =>
        simp only [Option.map_eq_some']
        constructor
        · rintro ⟨i2, hfind, hk⟩
          have hk2 : i2 = k := by omega
          rw [hk2] at hfind
          obtain ⟨⟨t2, ht2, hm⟩, hall⟩ := (ih k).mp hfind
          refine ⟨⟨t2, by simpa using ht2, hm⟩, ?_⟩
          intro j t3 hj ht3
          cases j with
          | zero =>
            simp only [List.get?_cons_zero, Option.some.injEq] at ht3
            exact ht3 ▸ h
          | succ j2 =>
            simp only [List.get?_cons_succ] at ht3
            exact hall j2 t3 (by omega) ht3
        · rintro ⟨⟨t2, ht2, hm⟩, hall⟩
          refine ⟨k, (ih k).mpr ⟨⟨t2, by simpa using ht2, hm⟩, ?_⟩, rfl⟩
          intro j t3 hj ht3
          exact hall (j + 1) t3 (by omega) (by simpa using ht3)

theorem find_next_high_none_iff (now : ℚ) :
    ∀ tides : List Tide,
      find_next_high_tide tides now = none ↔ ∀ t ∈ tides, ¬ NextHighMatch now t := by
  intro tides
  induction tides with
  | nil => simp [find_next_high_tide]
  | cons t rest ih =>
    by_cases h : NextHighMatch now t
    · have hb := (nextHighMatch_iff now t).mp h
      rw [find_next_high_tide, if_pos hb]
      constructor
      · intro hcon; simp at hcon
      · intro hall; exact absurd h (hall t (by simp))
    · have hb : ¬(t.type = TideType.HIGH ∧ timeAfter t.time now = true) :=
        fun hc => h ((nextHighMatch_iff now t).mpr hc)
      rw [find_next_high_tide, if_neg hb]
      simp only [Option.map_eq_none', ih, List.mem_cons]
      constructor
      · rintro hall t2 (rfl | h2)
        · exact h
        · exact hall t2 h2
      · intro hall t2 h2
        exact hall t2 (Or.inr h2)

theorem find_next_high_event_eq (now : ℚ) :
    ∀ tides : List Tide,
      (find_next_high_tide tides now).bind (fun i => tides.get? i) =
        (tides.filter (fun t => decide (t.type = TideType.HIGH))).find?
          (fun t => timeAfter t.time now) := by
  intro tides
  induction tides with
  | nil => rfl
  | cons t rest ih =>
    by_cases htype : t.type = TideType.HIGH
    · by_cases htime : timeAfter t.time now = true
      · rw [find_next_high_tide, if_pos ⟨htype, htime⟩]
        simp [List.filter_cons, htype, List.find?_cons, htime]
      · have hb : ¬(t.type = TideType.HIGH ∧ timeAfter t.time now = true) := by
          intro hc; exact htime hc.2
        rw [find_next_high_tide, if_neg hb]
        rw [List.filter_cons_of_pos (by simpa using htype),
          List.find?_cons_of_neg _ (by simpa using htime)]
        rw [← ih]
        cases hf : find_next_high_tide rest now <;> simp [hf]
    · have hb : ¬(t.type = TideType.HIGH ∧ timeAfter t.time now = true) := by
        intro hc; exact htype hc.1
      rw [find_next_high_tide, if_neg hb]
      rw [List.filter_cons_of_neg (by simpa using htype)]
      rw [← ih]
      cases hf : find_next_high_tide rest now <;> simp [hf]

/-- Claim C2 (as amended): `find_next_high_tide` returns the index of the
first event whose kind is HIGH, whose time is present, and whose time is
strictly greater than `now`; it returns `none` exactly when no such event
exists (HIGH events with absent times never match), and the event it
locates is the first match of the HIGH-only sublist, so LOW events
interspersed anywhere before it do not change which event is found (the
returned index, however, shifts past them — see the counterexample). -/
theorem c2_find_next_high_tide (tides : List Tide) (now : ℚ) :
    (∀ i, find_next_high_tide tides now = some i ↔
        (∃ t, tides.get? i = some t ∧ NextHighMatch now t) ∧
          ∀ j t, j < i → tides.get? j = some t → ¬ NextHighMatch now t) ∧
    (find_next_high_tide tides now = none ↔ ∀ t ∈ tides, ¬ NextHighMatch now t) ∧
    ((find_next_high_tide tides now).bind (fun i => tides.get? i) =
        (tides.filter (fun t => decide (t.type = TideType.HIGH))).find?
          (fun t => timeAfter t.time now)) :=
  ⟨find_next_high_some_iff now tides, find_next_high_none_iff now tides,
    find_next_high_event_eq now tides⟩

/-- Witness for C2 on the synthetic event list at 9:00 AM: the next high
tide is the event at index 1. -/
theorem c2_find_next_high_tide_witness :
    find_next_high_tide syntheticEvents now9am = some 1 ∧
      ((syntheticEvents.get? 1).elim False (NextHighMatch now9am)) := by
  have h := (c2_find_next_high_tide syntheticEvents now9am).1 1
  have hfind : find_next_high_tide syntheticEvents now9am = some 1 := by
    have h1 : parse_time "6:00 AM" = some 360 := by decide
    have h2 : parse_time "12:00 PM" = some 720 := by decide
    simp +decide [find_next_high_tide, syntheticEvents, h1, h2, timeAfter, now9am]
  refine ⟨hfind, ?_⟩
  obtain ⟨⟨t, ht, hm⟩, -⟩ := h.mp hfind
  rw [ht]
  exact hm

/-- The Boolean test "time present and at most `now`" used to state which
events can stand as `prev`. -/
def timeAtOrBefore (t : Option ℚ) (now : ℚ) : Bool :=
  match t with
  | some x => decide (x ≤ now)
  | none => false

theorem getLast?_cons_elim (a : α) (l : List α) :
    (a :: l).getLast? = (l.getLast?).elim (some a) some := by
  induction l generalizing a with
  | nil => rfl
  | cons b m ih =>
    rw [List.getLast?_cons_cons, ih b]
    cases hm : m.getLast? <;> simp

theorem scanBracket_inv (now : ℚ) :
    ∀ (l : List Tide) (prev : Option (Tide × ℚ)),
      (∀ p pt, prev = some (p, pt) → p.time = some pt ∧ pt ≤ now) →
      (∀ p pt, (scanBracket now prev l).1 = some (p, pt) → p.time = some pt ∧ pt ≤ now) ∧
      (∀ n nt, (scanBracket now prev l).2 = some (n, nt) → n.time = some nt ∧ now < nt) := by
  intro l
  induction l with
  | nil =>
    intro prev h
    exact ⟨by simpa [scanBracket] using h, by simp [scanBracket]⟩
  | cons t rest ih =>
    intro prev h
    cases ht : t.time with
    | none => simpa [scanBracket, ht] using ih prev h
    | some x =>
      by_cases hx : x ≤ now
      · simp only [scanBracket, ht]
        rw [if_pos hx]
        refine ih (some (t, x)) ?_
        rintro p pt hp
        rw [Option.some.injEq, Prod.mk.injEq] at hp
        obtain ⟨rfl, rfl⟩ := hp
        exact ⟨ht, hx⟩
      · simp only [scanBracket, ht]
        rw [if_neg hx]
        constructor
        · exact h
        · rintro n nt hn
          rw [Option.some.injEq, Prod.mk.injEq] at hn
          obtain ⟨rfl, rfl⟩ := hn
          exact ⟨ht, lt_of_not_le hx⟩

theorem scanBracket_snd_eq (now : ℚ) :
    ∀ (l : List Tide) (prev : Option (Tide × ℚ)),
      Option.map Prod.fst (scanBracket now prev l).2 =
        l.find? (fun t => timeAfter t.time now) := by
  intro l
  induction l with
  | nil => intro prev; simp [scanBracket]
  | cons t rest ih =>
    intro prev
    cases ht : t.time with
    | none =>
      rw [List.find?_cons_of_neg _ (by simp [timeAfter, ht])]
      simp only [scanBracket, ht]
      exact ih prev
    | some x =>
      by_cases hx : x ≤ now
      · rw [List.find?_cons_of_neg _ (by simp [timeAfter, ht]; linarith)]
        simp only [scanBracket, ht]
        rw [if_pos hx]
        exact ih (some (t, x))
      · rw [List.find?_cons_of_pos _ (by simp [timeAfter, ht]; linarith [lt_of_not_le hx])]
        simp only [scanBracket, ht]
        rw [if_neg hx]
        rfl

theorem scanBracket_fst_eq (now : ℚ) :
    ∀ (l : List Tide) (prev : Option (Tide × ℚ)),
      Option.map Prod.fst (scanBracket now prev l).1 =
        (((l.takeWhile (fun t => !(timeAfter t.time now))).filter
            (fun t => timeAtOrBefore t.time now)).getLast?).elim
          (Option.map Prod.fst prev) some := by
  intro l
  induction l with
  | nil => intro prev; simp [scanBracket]
  | cons t rest ih =>
    intro prev
    cases ht : t.time with
    | none =>
      rw [List.takeWhile_cons_of_pos (by simp [timeAfter, ht]),
        List.filter_cons_of_neg (by simp [timeAtOrBefore, ht])]
      simp only [scanBracket, ht]
      exact ih prev
    | some x =>
      by_cases hx : x ≤ now
      · rw [List.takeWhile_cons_of_pos (by simp [timeAfter, ht]; linarith),
          List.filter_cons_of_pos (by simp [timeAtOrBefore, ht]; linarith),
          getLast?_cons_elim]
        simp only [scanBracket, ht]
        rw [if_pos hx, ih (some (t, x))]
        cases hlast : (((rest.takeWhile (fun t => !(timeAfter t.time now))).filter
            (fun t => timeAtOrBefore t.time now))).getLast? <;> simp
      · rw [List.takeWhile_cons_of_neg (by simp [timeAfter, ht]; linarith [lt_of_not_le hx])]
        simp only [scanBracket, ht]
        rw [if_neg hx]
        simp

/-- The status record `get_current_tide_status` builds from a bracket
`(p, pt)`, `(n, nt)` and parsed heights `ph`, `nh` (lines 137-168). -/
def mkStatus (p : Tide) (pt : ℚ) (n : Tide) (nt : ℚ) (ph nh now : ℚ) : TideStatus :=
  { current_height := interpHeight ph nh (tideProgress pt nt now),
    direction := if decide (n.type = TideType.HIGH) then "Rising" else "Falling",
    is_rising := decide (n.type = TideType.HIGH),
    progress := tideProgress pt nt now,
    prev_tide := p,
    next_tide := n,
    hours_remaining := (nt - now) / 60 }

theorem status_some_iff (tides : List Tide) (now : ℚ) (s : TideStatus) :
    get_current_tide_status tides now = some s ↔
      ¬ tides.length < 2 ∧
      ∃ p pt n nt ph nh,
        scanBracket now none tides = (some (p, pt), some (n, nt)) ∧
        parseFloat (replaceAllM p.height) = some ph ∧
        parseFloat (replaceAllM n.height) = some nh ∧
        s = mkStatus p pt n nt ph nh now := by
  unfold get_current_tide_status
  by_cases hl : tides.length < 2
  · rw [if_pos hl]
    simp [hl]
  · rw [if_neg hl]
    rcases scanBracket now none tides with ⟨- | ⟨p, pt⟩, snd⟩
    · simp
    · rcases snd with - | ⟨n, nt⟩
      · simp
      · rcases hp : parseFloat (replaceAllM p.height) with - | ph
        · simp only [hp]
          constructor
          · intro hcon; cases hcon
          · rintro ⟨-, p2, pt2, n2, nt2, ph2, nh2, heq, hp2, -, -⟩
            rw [Prod.mk.injEq, Option.some.injEq, Option.some.injEq,
              Prod.mk.injEq, Prod.mk.injEq] at heq
            obtain ⟨⟨rfl, rfl⟩, ⟨rfl, rfl⟩⟩ := heq
            rw [hp] at hp2
            cases hp2
        · rcases hn : parseFloat (replaceAllM n.height) with - | nh
          · simp only [hp, hn]
            constructor
            · intro hcon; cases hcon
            · rintro ⟨-, p2, pt2, n2, nt2, ph2, nh2, heq, -, hn2, -⟩
              rw [Prod.mk.injEq, Option.some.injEq, Option.some.injEq,
                Prod.mk.injEq, Prod.mk.injEq] at heq
              obtain ⟨⟨rfl, rfl⟩, ⟨rfl, rfl⟩⟩ := heq
              rw [hn] at hn2
              cases hn2
          · simp only [hp, hn, Option.some.injEq]
            constructor
            · intro hs
              refine ⟨hl, p, pt, n, nt, ph, nh, rfl, hp, hn, ?_⟩
              rw [← hs]
              rfl
            · rintro ⟨-, p2, pt2, n2, nt2, ph2, nh2, heq, hp2, hn2, hs⟩
              rw [Prod.mk.injEq, Option.some.injEq, Option.some.injEq,
                Prod.mk.injEq, Prod.mk.injEq] at heq
              obtain ⟨⟨rfl, rfl⟩, ⟨rfl, rfl⟩⟩ := heq
              rw [hp] at hp2
              rw [hn] at hn2
              cases hp2
              cases hn2
              rw [hs]
              rfl

/-- The status the calculator produces for the synthetic events at 9:00 AM. -/
def synStatus : TideStatus :=
  { current_height := 23/20, direction := "Rising", is_rising := true, progress := 1/2,
    prev_tide := { time_str := "6:00 AM", time := some 360, height := "0.50m", type := TideType.LOW },
    next_tide := { time_str := "12:00 PM", time := some 720, height := "1.80m", type := TideType.HIGH },
    hours_remaining := 3 }

theorem syntheticStatus_eq :
    get_current_tide_status syntheticEvents now9am = some synStatus := by
  have h1 : parse_time "6:00 AM" = some 360 := by decide
  have h2 : parse_time "12:00 PM" = some 720 := by decide
  have hp1 : parseFloatSigned (floatStrip (replaceAllM "0.50m")) = some (false, 0, 50, 2) := by
    decide
  have hp2 : parseFloatSigned (floatStrip (replaceAllM "1.80m")) = some (false, 1, 80, 2) := by
    decide
  rw [show syntheticEvents =
    [ { time_str := "6:00 AM", time := some 360, height := "0.50m", type := TideType.LOW },
      { time_str := "12:00 PM", time := some 720, height := "1.80m", type := TideType.HIGH } ] by
    rw [syntheticEvents, h1, h2]]
  simp +decide [get_current_tide_status, scanBracket, parseFloat, hp1, hp2,
    floatVal, tideProgress, interpHeight, now9am, synStatus]
  norm_num

/-- Claim C3: `get_current_tide_status` returns `none` whenever the event
list has fewer than 2 events, or the scan finds no bracketing pair; the
scan skips events with absent times, stops at the first event with a time
after `now` (which becomes `next`), and takes as `prev` the last event
with a present time at most `now` among those before the stopping point. -/
theorem c3_bracketing_scan (tides : List Tide) (now : ℚ) :
    (tides.length < 2 → get_current_tide_status tides now = none) ∧
    ((scanBracket now none tides).1 = none ∨ (scanBracket now none tides).2 = none →
      get_current_tide_status tides now = none) ∧
    Option.map Prod.fst (scanBracket now none tides).2 =
      tides.find? (fun t => timeAfter t.time now) ∧
    Option.map Prod.fst (scanBracket now none tides).1 =
      ((tides.takeWhile (fun t => !(timeAfter t.time now))).filter
        (fun t => timeAtOrBefore t.time now)).getLast? := by
  refine ⟨?_, ?_, scanBracket_snd_eq now tides none, ?_⟩
  · intro h
    unfold get_current_tide_status
    rw [if_pos h]
  · intro h
    unfold get_current_tide_status
    by_cases hl : tides.length < 2
    · rw [if_pos hl]
    · rw [if_neg hl]
      revert h
      rcases scanBracket now none tides with ⟨- | ⟨p, pt⟩, - | ⟨n, nt⟩⟩
      · intro h; rfl
      · intro h; rfl
      · intro h; rfl
      · intro h; simp at h
  · rw [scanBracket_fst_eq now tides none]
    cases ((tides.takeWhile (fun t => !(timeAfter t.time now))).filter
        (fun t => timeAtOrBefore t.time now)).getLast? <;> rfl

/-- Claim C7: whenever `get_current_tide_status` returns a status, its
`progress` field equals `(now - prev.time) / (next.time - prev.time)` when
that denominator is positive, and is 0 (no division is performed) when the
denominator is zero or negative; the computation is total either way. -/
theorem c7_progress_total (tides : List Tide) (now : ℚ) (s : TideStatus)
    (h : get_current_tide_status tides now = some s) :
    ∃ pt nt, s.prev_tide.time = some pt ∧ s.next_tide.time = some nt ∧
      s.progress = (if 0 < nt - pt then (now - pt) / (nt - pt) else 0) := by
  obtain ⟨-, p, pt, n, nt, ph, nh, hscan, -, -, hs⟩ := (status_some_iff tides now s).mp h
  obtain ⟨hfst, hsnd⟩ := scanBracket_inv now tides none (by intro p2 pt2 hcon; cases hcon)
  have hp := hfst p pt (by rw [hscan])
  have hn := hsnd n nt (by rw [hscan])
  refine ⟨pt, nt, ?_, ?_, ?_⟩
  · rw [hs]; exact hp.1
  · rw [hs]; exact hn.1
  · rw [hs]
    rfl

/-- Witness for C7 on the synthetic events at 9:00 AM. -/
theorem c7_progress_total_witness :
    ∃ pt nt, synStatus.prev_tide.time = some pt ∧ synStatus.next_tide.time = some nt ∧
      synStatus.progress = (if 0 < nt - pt then (now9am - pt) / (nt - pt) else 0) :=
  c7_progress_total syntheticEvents now9am synStatus syntheticStatus_eq

/-- Claim C10: whenever `get_current_tide_status` returns a status, the
bracketing postcondition `prev.time ≤ now < next.time` holds, so the
interpolation denominator is strictly positive (the zero-denominator
fallback is not taken: `progress` is the actual quotient), `progress` lies
in `[0, 1)`, and `hours_remaining` is strictly positive. -/
theorem c10_bracket_postcondition (tides : List Tide) (now : ℚ) (s : TideStatus)
    (h : get_current_tide_status tides now = some s) :
    ∃ pt nt, s.prev_tide.time = some pt ∧ s.next_tide.time = some nt ∧
      pt ≤ now ∧ now < nt ∧ 0 < nt - pt ∧
      s.progress = (now - pt) / (nt - pt) ∧
      0 ≤ s.progress ∧ s.progress < 1 ∧ 0 < s.hours_remaining := by
  obtain ⟨-, p, pt, n, nt, ph, nh, hscan, -, -, hs⟩ := (status_some_iff tides now s).mp h
  obtain ⟨hfst, hsnd⟩ := scanBracket_inv now tides none (by intro p2 pt2 hcon; cases hcon)
  have hp := hfst p pt (by rw [hscan])
  have hn := hsnd n nt (by rw [hscan])
  have hden : 0 < nt - pt := by linarith [hp.2, hn.2]
  have hprog : s.progress = (now - pt) / (nt - pt) := by
    rw [hs]
    show tideProgress pt nt now = (now - pt) / (nt - pt)
    unfold tideProgress
    rw [if_pos hden]
  refine ⟨pt, nt, by rw [hs]; exact hp.1, by rw [hs]; exact hn.1, hp.2, hn.2, hden, hprog,
    ?_, ?_, ?_⟩
  · rw [hprog]
    exact div_nonneg (by linarith [hp.2]) (le_of_lt hden)
  · rw [hprog, div_lt_one hden]
    linarith [hn.2]
  · rw [hs]
    show 0 < (nt - now) / 60
    exact div_pos (by linarith [hn.2]) (by norm_num)

/-- Witness for C10 on the synthetic events at 9:00 AM. -/
theorem c10_bracket_postcondition_witness :
    ∃ pt nt, synStatus.prev_tide.time = some pt ∧ synStatus.next_tide.time = some nt ∧
      pt ≤ now9am ∧ now9am < nt ∧ 0 < nt - pt ∧
      synStatus.progress = (now9am - pt) / (nt - pt) ∧
      0 ≤ synStatus.progress ∧ synStatus.progress < 1 ∧ 0 < synStatus.hours_remaining :=
  c10_bracket_postcondition syntheticEvents now9am synStatus syntheticStatus_eq

/-- Claim C1: `get_current_tide_status` computes the interpolated height as
`prev_height + (next_height - prev_height) * progress` (the heights being
the parsed bracketing labels); on the synthetic events 6:00 AM LOW 0.50m
and 12:00 PM HIGH 1.80m with `now` = 9:00 AM it returns progress 1/2,
current height 1.15 m (= 23/20), direction Rising, and 3.0 hours
remaining. -/
theorem c1_interpolation_roundtrip :
    (∀ (tides : List Tide) (now : ℚ) (s : TideStatus),
      get_current_tide_status tides now = some s →
      ∃ ph nh, parseFloat (replaceAllM s.prev_tide.height) = some ph ∧
        parseFloat (replaceAllM s.next_tide.height) = some nh ∧
        s.current_height = ph + (nh - ph) * s.progress) ∧
    (get_current_tide_status syntheticEvents now9am = some synStatus ∧
      synStatus.progress = 1/2 ∧ synStatus.current_height = 23/20 ∧
      synStatus.direction = "Rising" ∧ synStatus.is_rising = true ∧
      synStatus.hours_remaining = 3) := by
  constructor
  · intro tides now s h
    obtain ⟨-, p, pt, n, nt, ph, nh, -, hp, hn, hs⟩ := (status_some_iff tides now s).mp h
    refine ⟨ph, nh, ?_, ?_, ?_⟩
    · rw [hs]; exact hp
    · rw [hs]; exact hn
    · rw [hs]; rfl
  · exact ⟨syntheticStatus_eq, rfl, rfl, rfl, rfl, rfl⟩

/-- Claim C6: for a fixed bracketing pair with `pt < nt`, the progress
fraction runs monotonically from 0 at `pt` to 1 at `nt` as `now`
increases, and the interpolated height then moves monotonically between
the two heights: non-decreasing when `nh ≥ ph`, non-increasing
otherwise. -/
theorem c6_monotonic_interpolation (pt nt ph nh : ℚ) (hlt : pt < nt) :
    tideProgress pt nt pt = 0 ∧ tideProgress pt nt nt = 1 ∧
    (∀ n1 n2, n1 ≤ n2 → tideProgress pt nt n1 ≤ tideProgress pt nt n2) ∧
    (ph ≤ nh → ∀ n1 n2, n1 ≤ n2 →
      interpHeight ph nh (tideProgress pt nt n1) ≤ interpHeight ph nh (tideProgress pt nt n2)) ∧
    (nh ≤ ph → ∀ n1 n2, n1 ≤ n2 →
      interpHeight ph nh (tideProgress pt nt n2) ≤ interpHeight ph nh (tideProgress pt nt n1)) := by
  have hden : 0 < nt - pt := by linarith
  have hunfold : ∀ x : ℚ, tideProgress pt nt x = (x - pt) / (nt - pt) := by
    intro x
    unfold tideProgress
    rw [if_pos hden]
  have hmono : ∀ n1 n2 : ℚ, n1 ≤ n2 → tideProgress pt nt n1 ≤ tideProgress pt nt n2 := by
    intro n1 n2 h12
    rw [hunfold n1, hunfold n2]
    exact (div_le_div_right hden).mpr (by linarith)
  refine ⟨?_, ?_, hmono, ?_, ?_⟩
  · rw [hunfold, sub_self, zero_div]
  · rw [hunfold, div_self (ne_of_gt hden)]
  · intro hph n1 n2 h12
    unfold interpHeight
    have := hmono n1 n2 h12
    nlinarith [hmono n1 n2 h12]
  · intro hph n1 n2 h12
    unfold interpHeight
    nlinarith [hmono n1 n2 h12]

/-- Witness for C6 with the bracket 0-60 minutes and heights 1 and 2
metres: the progress at the left endpoint is 0. -/
theorem c6_monotonic_interpolation_witness :
    tideProgress 0 60 0 = 0 :=
  (c6_monotonic_interpolation 0 60 1 2 (by norm_num)).1

/-- Counterexample to C8 as stated: the label `"0m.50m"` fails to parse
once only a trailing unit suffix is stripped (what the claim describes),
yet `get_current_tide_status` returns a status for it, because the code
removes every occurrence of the unit character before parsing. -/
theorem c8_counterexample :
    parseFloat (specStripTrailingSuffix "0m.50m") = none ∧
    get_current_tide_status oddHeightEvents 540 =
      some { current_height := 23/20, direction := "Rising", is_rising := true,
             progress := 1/2,
             prev_tide := { time_str := "6:00 AM", time := some 360,
                            height := "0m.50m", type := TideType.LOW },
             next_tide := { time_str := "12:00 PM", time := some 720,
                            height := "1.80m", type := TideType.HIGH },
             hours_remaining := 3 } := by
  constructor
  · decide
  · have hp1 : parseFloatSigned (floatStrip (replaceAllM "0m.50m")) = some (false, 0, 50, 2) := by
      decide
    have hp2 : parseFloatSigned (floatStrip (replaceAllM "1.80m")) = some (false, 1, 80, 2) := by
      decide
    simp +decide [get_current_tide_status, oddHeightEvents, scanBracket, parseFloat, hp1, hp2,
      floatVal, tideProgress, interpHeight]
    norm_num

/-- Claim C8 as amended: in `get_current_tide_status`, height labels are
converted to numbers by removing every occurrence of the unit character
`m` from the label (not only a trailing suffix); whenever a bracketing
pair is found and either converted label fails to parse as a number, the
function returns `none`, and whenever it returns a status the interpolated
height is computed from exactly these conversions of the bracketing
labels. -/
theorem c8_unit_stripping_amended :
    (∀ (tides : List Tide) (now : ℚ) (s : TideStatus),
      get_current_tide_status tides now = some s →
      ∃ ph nh, parseFloat (replaceAllM s.prev_tide.height) = some ph ∧
        parseFloat (replaceAllM s.next_tide.height) = some nh ∧
        s.current_height = interpHeight ph nh s.progress) ∧
    (∀ (tides : List Tide) (now : ℚ) (p : Tide) (pt : ℚ) (n : Tide) (nt : ℚ),
      scanBracket now none tides = (some (p, pt), some (n, nt)) →
      (parseFloat (replaceAllM p.height) = none ∨ parseFloat (replaceAllM n.height) = none) →
      get_current_tide_status tides now = none) := by
  constructor
  · intro tides now s h
    obtain ⟨-, p, pt, n, nt, ph, nh, -, hp, hn, hs⟩ := (status_some_iff tides now s).mp h
    refine ⟨ph, nh, ?_, ?_, ?_⟩
    · rw [hs]; exact hp
    · rw [hs]; exact hn
    · rw [hs]; rfl
  · intro tides now p pt n nt hscan hfail
    cases hst : get_current_tide_status tides now with
    | none => rfl
    | some s =>
      obtain ⟨-, p2, pt2, n2, nt2, ph2, nh2, hscan2, hp2, hn2, -⟩ :=
        (status_some_iff tides now s).mp hst
      rw [hscan, Prod.mk.injEq, Option.some.injEq, Option.some.injEq,
        Prod.mk.injEq, Prod.mk.injEq] at hscan2
      obtain ⟨⟨rfl, rfl⟩, ⟨rfl, rfl⟩⟩ := hscan2
      rcases hfail with hf | hf
      · rw [hf] at hp2
        cases hp2
      · rw [hf] at hn2
        cases hn2

theorem parsePointClk_congr (clk clk2 : Nat → ClockReading) (i : Nat) (p : Point)
    (h : pointReads p = true → clk i = clk2 i) :
    parsePointClk clk i p = parsePointClk clk2 i p := by
  unfold parsePointClk
  cases hts : p.time_elem with
  | none => rfl
  | some ts =>
    cases hhs : p.height_elem with
    | none => rfl
    | some hs =>
      cases hpr : parse_time_raw ts with
      | none => simp [hpr]
      | some m =>
        have hclk : clk i = clk2 i := by
          apply h
          unfold pointReads
          rw [hts, hhs]
          show (parse_time_raw ts).isSome = true
          rw [hpr]
          rfl
        simp [hpr, hclk]

theorem parsePointClk_snd (clk : Nat → ClockReading) (i : Nat) (p : Point) :
    (parsePointClk clk i p).2 = if pointReads p then i + 1 else i := by
  unfold parsePointClk pointReads
  cases hts : p.time_elem with
  | none => rfl
  | some ts =>
    cases hhs : p.height_elem with
    | none => rfl
    | some hs =>
      cases hpr : parse_time_raw ts with
      | none => simp [hpr]
      | some m => simp [hpr]

theorem parseClk_snd (clk : Nat → ClockReading) :
    ∀ (pts : List Point) (i : Nat),
      (parseClk clk i pts).2 = i + (pts.filter pointReads).length := by
  intro pts
  induction pts with
  | nil => intro i; simp [parseClk]
  | cons p ps ih =>
    intro i
    rcases hp : parsePointClk clk i p with ⟨opt, i2⟩
    have hi2 : i2 = if pointReads p then i + 1 else i := by
      rw [← parsePointClk_snd clk i p, hp]
    have hsnd : (parseClk clk i (p :: ps)).2 = (parseClk clk i2 ps).2 := by
      rw [parseClk, hp]
      cases opt <;> rfl
    rw [hsnd, ih i2]
    cases hb : pointReads p
    · rw [hi2, if_neg (by simp [hb]), List.filter_cons_of_neg (by simp [hb])]
    · rw [hi2, if_pos (by simp [hb]), List.filter_cons_of_pos (by simp [hb])]
      simp
      omega

theorem parseClk_congr (clk clk2 : Nat → ClockReading) :
    ∀ (pts : List Point) (i : Nat),
      (∀ j, i ≤ j → j < i + (pts.filter pointReads).length → clk j = clk2 j) →
      parseClk clk i pts = parseClk clk2 i pts := by
  intro pts
  induction pts with
  | nil => intro i h; rfl
  | cons p ps ih =>
    intro i h
    have hcount : ((p :: ps).filter pointReads).length =
        (if pointReads p then 1 else 0) + (ps.filter pointReads).length := by
      cases hb : pointReads p
      · rw [List.filter_cons_of_neg (by simp [hb]), if_neg (by simp [hb])]
        omega
      · rw [List.filter_cons_of_pos (by simp [hb]), if_pos (by simp [hb])]
        simp
        omega
    have hpoint : parsePointClk clk i p = parsePointClk clk2 i p := by
      apply parsePointClk_congr
      intro hr
      apply h i le_rfl
      rw [hcount, if_pos hr]
      omega
    have hrec : parseClk clk (parsePointClk clk i p).2 ps =
        parseClk clk2 (parsePointClk clk i p).2 ps := by
      apply ih
      intro j hj1 hj2
      apply h j
      · rw [parsePointClk_snd] at hj1
        by_cases hr : pointReads p
        · rw [if_pos hr] at hj1; omega
        · rw [if_neg hr] at hj1; omega
      · rw [parsePointClk_snd] at hj1 hj2
        rw [hcount]
        by_cases hr : pointReads p
        · rw [if_pos hr] at hj1 hj2
          rw [if_pos hr]
          omega
        · rw [if_neg hr] at hj1 hj2
          rw [if_neg hr]
          omega
    rcases hp : parsePointClk clk i p with ⟨opt, i2⟩
    rw [hp] at hrec
    show parseClk clk i (p :: ps) = parseClk clk2 i (p :: ps)
    rw [parseClk, parseClk, hp, ← hpoint, hp]
    cases opt with
    | none => exact hrec
    | some t =>
      have hrec2 : parseClk clk i2 ps = parseClk clk2 i2 ps := hrec
      show (t :: (parseClk clk i2 ps).1, (parseClk clk i2 ps).2) =
        (t :: (parseClk clk2 i2 ps).1, (parseClk clk2 i2 ps).2)
      rw [hrec2]

/-- Counterexample to C9 as stated: two clock streams that agree on the
first reading (the only reading a single-read run would take) but differ
on a later one.  The run extracts the same event from the same markup, yet
`find_next_high_tide`, which takes its own `datetime.now()` reading,
reports a coming high tide under one stream and none under the other — so
the run's results do not depend only on one clock reading. -/
theorem c9_counterexample :
    clkConst 0 = clkDrift 0 ∧
    (runPipeline clkConst [highPoint]).2.2 = some 0 ∧
    (runPipeline clkDrift [highPoint]).2.2 = none ∧
    runPipeline clkConst [highPoint] ≠ runPipeline clkDrift [highPoint] := by
  have h1 : parse_time_raw "6:00 AM" = some 360 := by decide
  have ha : (runPipeline clkConst [highPoint]).2.2 = some 0 := by
    simp only [runPipeline, parseClk, parsePointClk, highPoint, h1, statusClk, findClk]
    norm_num [find_next_high_tide, timeAfter, anchorToDay, absTime, clkConst, tideTypeOf]
  have hb : (runPipeline clkDrift [highPoint]).2.2 = none := by
    simp only [runPipeline, parseClk, parsePointClk, highPoint, h1, statusClk, findClk]
    norm_num [find_next_high_tide, timeAfter, anchorToDay, absTime, clkDrift, tideTypeOf]
  refine ⟨rfl, ha, hb, ?_⟩
  intro hcon
  rw [hcon, hb] at ha
  cases ha

/-- Claim C9 as amended: the current instant is not read once per run; each
function reads the clock itself.  Extraction reads it once per point whose
time label parses (the reading count of `parseClk` equals the number of
such points), and its output depends only on those readings;
`get_current_tide_status` and `find_next_high_tide` each take one reading
of their own, held fixed for that whole calculation, so each result
depends only on that function's own reading — but nothing makes the
readings of different passes equal. -/
theorem c9_clock_reads_amended :
    (∀ (clk : Nat → ClockReading) (pts : List Point),
      (parseClk clk 0 pts).2 = (pts.filter pointReads).length) ∧
    (∀ (clk clk2 : Nat → ClockReading) (pts : List Point),
      (∀ j, j < (pts.filter pointReads).length → clk j = clk2 j) →
      parseClk clk 0 pts = parseClk clk2 0 pts) ∧
    (∀ (tides : List Tide) (clk clk2 : Nat → ClockReading) (i : Nat),
      clk i = clk2 i → (statusClk tides clk i).1 = (statusClk tides clk2 i).1) ∧
    (∀ (tides : List Tide) (clk clk2 : Nat → ClockReading) (i : Nat),
      clk i = clk2 i → (findClk tides clk i).1 = (findClk tides clk2 i).1) := by
  refine ⟨?_, ?_, ?_, ?_⟩
  · intro clk pts
    rw [parseClk_snd clk pts 0]
    omega
  · intro clk clk2 pts h
    apply parseClk_congr
    intro j hj1 hj2
    exact h j (by omega)
  · intro tides clk clk2 i h
    unfold statusClk
    by_cases hl : tides.length < 2
    · rw [if_pos hl, if_pos hl]
    · rw [if_neg hl, if_neg hl, h]
  · intro tides clk clk2 i h
    unfold findClk
    rw [h]

/-- Counterexample to C2 as stated: interspersing a LOW event before the
matching HIGH event changes the returned index (from 0 to 1), so the
result — the index — is not unchanged; only the event it points at is. -/
theorem c2_counterexample :
    find_next_high_tide
      [{ time_str := "12:00 PM", time := some 720, height := "1.80m", type := TideType.HIGH }]
      540 = some 0 ∧
    find_next_high_tide
      [{ time_str := "11:00 AM", time := some 660, height := "0.50m", type := TideType.LOW },
       { time_str := "12:00 PM", time := some 720, height := "1.80m", type := TideType.HIGH }]
      540 = some 1 ∧
    (some 0 : Option Nat) ≠ some 1 := by
  refine ⟨?_, ?_, by decide⟩
  · simp +decide [find_next_high_tide, timeAfter]
  · simp +decide [find_next_high_tide, timeAfter]
